import Mathlib

/-!
Shallow embedding of `src/watch.py` (repository `broken-watch`).

The program models a watch whose day-of-week and day-of-month dials are
mechanically coupled: one "click" advances both at once, modulo 7 and 31.
The Python source consists of the `BrokenDateDial` named tuple with
`fromdate`, `__add__`, `_sub__integer` and `clicks_from`, the free function
`bezouts_identity`, and the scanner `count_broken_dial_correct`.

Calendar facts (Python's `datetime.date`) are modelled by the proleptic
Gregorian calendar, exactly as CPython implements it: `toordinal` counts
days from 0001-01-01 (= day 1, a Monday), `isoweekday` is derived from the
ordinal, and adding `timedelta(1)` is the next-day successor.

Machine integers are `Int`; Python's `%` on a positive modulus agrees with
Lean's `Int.emod` (always non-negative). The Python `while True` loop is
embedded with explicit fuel: `none` means the fuel ran out before the loop
returned.
-/

namespace BrokenWatch

/-- Gregorian leap-year test, as in CPython `datetime._is_leap`. -/
def isLeap (y : Nat) : Bool :=
  (y % 4 == 0 && y % 100 != 0) || y % 400 == 0

/-- Days in month `m` of year `y` (CPython `datetime._days_in_month`);
months are 1..12, other inputs give 0. -/
def daysInMonth (y m : Nat) : Nat :=
  match m with
  | 1 => 31
  | 2 => if isLeap y then 29 else 28
  | 3 => 31
  | 4 => 30
  | 5 => 31
  | 6 => 30
  | 7 => 31
  | 8 => 31
  | 9 => 30
  | 10 => 31
  | 11 => 30
  | 12 => 31
  | _ => 0

/-- Days in year `y` strictly before month `m`
(CPython `datetime._days_before_month`: the `_DAYS_BEFORE_MONTH` table
plus a leap correction after February). -/
def daysBeforeMonth (y m : Nat) : Nat :=
  (match m with
   | 1 => 0
   | 2 => 31
   | 3 => 59
   | 4 => 90
   | 5 => 120
   | 6 => 151
   | 7 => 181
   | 8 => 212
   | 9 => 243
   | 10 => 273
   | 11 => 304
   | 12 => 334
   | _ => 0) +
  (if 2 < m ∧ isLeap y then 1 else 0)

/-- Days before January 1 of year `y`
(CPython `datetime._days_before_year`). -/
def daysBeforeYear (y : Nat) : Nat :=
  let n := y - 1
  365 * n + n / 4 - n / 100 + n / 400

/-- A calendar date, the state of a Python `datetime.date`. -/
structure Date where
  year : Nat
  month : Nat
  day : Nat
deriving DecidableEq, Repr

/-- A `Date` whose fields are in calendar range (year at least 1).
CPython additionally caps the year at 9999 (`date.max` is 9999-12-31);
that cap bites at the day increment, where it is modelled faithfully —
see `addOneDay`, which fails past `date.max` exactly as
`d + timedelta(1)` raises `OverflowError`. -/
def ValidDate (d : Date) : Prop :=
  1 ≤ d.year ∧ 1 ≤ d.month ∧ d.month ≤ 12 ∧ 1 ≤ d.day ∧
    d.day ≤ daysInMonth d.year d.month

instance (d : Date) : Decidable (ValidDate d) := by
  unfold ValidDate
  exact inferInstance

/-- CPython `datetime.date.toordinal`: 0001-01-01 is day 1. -/
def toordinal (d : Date) : Nat :=
  daysBeforeYear d.year + daysBeforeMonth d.year d.month + d.day

/-- CPython `datetime.date.isoweekday`: Monday = 1 .. Sunday = 7.
Day ordinal 1 (0001-01-01) is a Monday. -/
def isoweekday (d : Date) : Nat :=
  (toordinal d - 1) % 7 + 1

/-- The year/month/day successor of a date (no range cap). Helper for
`addOneDay` below. -/
def nextDay (d : Date) : Date :=
  if d.day < daysInMonth d.year d.month then ⟨d.year, d.month, d.day + 1⟩
  else if d.month < 12 then ⟨d.year, d.month + 1, 1⟩
  else ⟨d.year + 1, 1, 1⟩

/-- The effect of `d + datetime.timedelta(1)` on a valid date: CPython
raises `OverflowError("result out of range")` when the resulting ordinal
would pass `date.max` = 9999-12-31 — for the valid dates the scanner
visits, exactly when the successor's year passes 9999. -/
def addOneDay (d : Date) : Except String Date :=
  if (nextDay d).year ≤ 9999 then Except.ok (nextDay d)
  else Except.error "result out of range"

/-- One-based index of `d` within its year (Jan 1 is 1). Proof-side
measure for the scanner's termination. -/
def dayOfYear (d : Date) : Nat :=
  daysBeforeMonth d.year d.month + d.day

/-- Number of days in year `y`. -/
def daysInYear (y : Nat) : Nat :=
  if isLeap y then 366 else 365

/-- `BrokenDateDial` from `src/watch.py`: `day` ∈ [0,6] (0 = Sunday),
`date` ∈ [1,31]. Python ints are unbounded, hence `Int` fields. -/
structure BrokenDateDial where
  day : Int
  date : Int
deriving DecidableEq, Repr

/-- The in-range property of a dial state documented in the source. -/
def InRange (s : BrokenDateDial) : Prop :=
  0 ≤ s.day ∧ s.day ≤ 6 ∧ 1 ≤ s.date ∧ s.date ≤ 31

instance (s : BrokenDateDial) : Decidable (InRange s) := by
  unfold InRange
  exact inferInstance

/-- `BrokenDateDial.fromdate`: `cls(d.isoweekday() % 7, d.day)`. -/
def fromdate (d : Date) : BrokenDateDial :=
  ⟨((isoweekday d % 7 : Nat) : Int), ((d.day : Nat) : Int)⟩

/-- `BrokenDateDial.__add__`: turn the dial forwards `n` clicks:
`BrokenDateDial((self.day + n) % 7, (self.date - 1 + n) % 31 + 1)`. -/
def add (s : BrokenDateDial) (n : Int) : BrokenDateDial :=
  ⟨(s.day + n) % 7, (s.date - 1 + n) % 31 + 1⟩

/-- `BrokenDateDial._sub__integer`: turn the dial backwards `n` clicks:
`return self + -n`. -/
def sub_integer (s : BrokenDateDial) (n : Int) : BrokenDateDial :=
  add s (-n)

/-- `bezouts_identity` from `src/watch.py`: hard-codes `(9, -2)` for the
pair `(7, 31)` and raises `NotImplementedError` for every other pair
(message elided of punctuation). -/
def bezouts_identity (n1 n2 : Int) : Except String (Int × Int) :=
  if n1 = 7 ∧ n2 = 31 then Except.ok (9, -2)
  else Except.error
    "Bezout identity calculation not implemented yet for anything besides 7, 31"

/-- `BrokenDateDial.clicks_from`: how many clicks to get from `other` to
`self`. A raised exception is modelled as `Except.error`. -/
def clicks_from (self other : BrokenDateDial) : Except String Int := do
  let day_delta := (self.day - other.day) % 7
  let date_delta := (self.date - other.date) % 31
  let n1 : Int := 7
  let n2 : Int := 31
  let (m1, m2) ← bezouts_identity n1 n2
  pure ((day_delta * m2 * n2 + date_delta * m1 * n1) % (n1 * n2))

/-- Body of the `while True` loop of `count_broken_dial_correct`, with
explicit fuel (`none` = fuel exhausted before the loop finished). The
loop finishes either with `Except.ok` of the count (return on year
rollover) or with `Except.error` (the `OverflowError` of `d +=
delta_one_day` propagating out of the function). -/
def countAux (dial : BrokenDateDial) (year : Nat) :
    Nat → Date → Int → Option (Except String Int)
  | 0, _, _ => none
  | fuel + 1, d, count =>
    let count' := if fromdate d = dial then count + 1 else count
    match addOneDay d with
    | Except.error e => some (Except.error e)
    | Except.ok d' =>
      if d'.year ≠ year then some (Except.ok count')
      else countAux dial year fuel d' count'

/-- `count_broken_dial_correct`: counts the days of `year` on which the
dial is calendar-correct, scanning from January 1 until the year changes
(or until the day increment overflows `date.max`). The loop body runs at
most once per day of the year, so fuel 366 is the claimed iteration
bound. -/
def count_broken_dial_correct (dial : BrokenDateDial) (year : Nat) :
    Option (Except String Int) :=
  countAux dial year 366 ⟨year, 1, 1⟩ 0

/-! ## Basic lemmas about the dial -/

theorem add_day (s : BrokenDateDial) (n : Int) :
    (add s n).day = (s.day + n) % 7 := rfl

theorem add_date (s : BrokenDateDial) (n : Int) :
    (add s n).date = (s.date - 1 + n) % 31 + 1 := rfl

theorem fromdate_day (d : Date) :
    (fromdate d).day = ((isoweekday d % 7 : Nat) : Int) := rfl

theorem fromdate_date (d : Date) :
    (fromdate d).date = ((d.day : Nat) : Int) := rfl

theorem dial_eq_iff (a b : BrokenDateDial) :
    a = b ↔ a.day = b.day ∧ a.date = b.date := by
  constructor
  · intro h
    exact ⟨congrArg BrokenDateDial.day h, congrArg BrokenDateDial.date h⟩
  · intro h
    cases a
    cases b
    exact congrArg₂ BrokenDateDial.mk h.1 h.2

/-- Unfolding of `clicks_from`: the Bézout lookup at `(7, 31)` succeeds
with `(9, -2)`, so the method always returns the CRT formula. -/
theorem clicks_from_eq (s o : BrokenDateDial) :
    clicks_from s o = Except.ok
      (((s.day - o.day) % 7 * -2 * 31 + (s.date - o.date) % 31 * 9 * 7) % 217) :=
  rfl

theorem clicks_from_ok {s o : BrokenDateDial} {x : Int}
    (h : clicks_from s o = Except.ok x) :
    x = ((s.day - o.day) % 7 * -2 * 31 + (s.date - o.date) % 31 * 9 * 7) % 217 := by
  rw [clicks_from_eq] at h
  injection h with h
  exact h.symm

theorem daysInMonth_le (y m : Nat) : daysInMonth y m ≤ 31 := by
  unfold daysInMonth
  split <;> first | omega | (split <;> omega)

/-! ## Calendar lemmas used for the scanner's termination -/

theorem daysInMonth_pos (y m : Nat) (h1 : 1 ≤ m) (h2 : m ≤ 12) :
    1 ≤ daysInMonth y m := by
  interval_cases m <;> simp [daysInMonth] <;> split <;> omega

theorem daysBeforeMonth_succ (y m : Nat) (h1 : 1 ≤ m) (h2 : m ≤ 11) :
    daysBeforeMonth y (m + 1) = daysBeforeMonth y m + daysInMonth y m := by
  cases h : isLeap y <;> interval_cases m <;>
    simp [daysBeforeMonth, daysInMonth, h]

theorem daysBeforeMonth_12 (y : Nat) :
    daysBeforeMonth y 12 + daysInMonth y 12 = daysInYear y := by
  cases h : isLeap y <;> simp [daysBeforeMonth, daysInMonth, daysInYear, h]

theorem dayOfYear_le (d : Date) (hd : ValidDate d) :
    dayOfYear d ≤ daysInYear d.year := by
  obtain ⟨hy, hm1, hm2, hd1, hd2⟩ := hd
  obtain ⟨y, m, day⟩ := d
  simp only at hy hm1 hm2 hd1 hd2 ⊢
  unfold dayOfYear
  cases h : isLeap y <;> interval_cases m <;>
    simp_all [daysBeforeMonth, daysInMonth, daysInYear, h] <;> omega

theorem nextDay_step (d : Date) (hd : ValidDate d)
    (hlt : dayOfYear d < daysInYear d.year) :
    ValidDate (nextDay d) ∧ (nextDay d).year = d.year ∧
      dayOfYear (nextDay d) = dayOfYear d + 1 := by
  obtain ⟨hy, hm1, hm2, hd1, hd2⟩ := hd
  obtain ⟨y, m, day⟩ := d
  unfold dayOfYear at hlt
  unfold nextDay ValidDate dayOfYear
  dsimp only at *
  split_ifs with hlt1 hlt2 <;> dsimp only
  · exact ⟨⟨hy, hm1, hm2, by omega, by omega⟩, rfl, by omega⟩
  · have hs := daysBeforeMonth_succ y m hm1 (by omega)
    have hp := daysInMonth_pos y (m + 1) (by omega) (by omega)
    exact ⟨⟨hy, by omega, by omega, by omega, by omega⟩, rfl, by omega⟩
  · exfalso
    have hm : m = 12 := by omega
    have h12 := daysBeforeMonth_12 y
    subst hm
    omega

theorem lastDay_of_year_end (d : Date) (hd : ValidDate d)
    (heq : dayOfYear d = daysInYear d.year) :
    ¬ d.day < daysInMonth d.year d.month ∧ ¬ d.month < 12 := by
  obtain ⟨hy, hm1, hm2, hd1, hd2⟩ := hd
  obtain ⟨y, m, day⟩ := d
  unfold dayOfYear at heq
  dsimp only at *
  cases h : isLeap y <;> interval_cases m <;>
    simp_all [daysBeforeMonth, daysInMonth, daysInYear, h] <;> omega

theorem nextDay_rollover (d : Date) (hd : ValidDate d)
    (heq : dayOfYear d = daysInYear d.year) :
    (nextDay d).year = d.year + 1 := by
  obtain ⟨hne1, hne2⟩ := lastDay_of_year_end d hd heq
  unfold nextDay
  rw [if_neg hne1, if_neg hne2]

theorem nextDay_year_le (d : Date) : (nextDay d).year ≤ d.year + 1 := by
  unfold nextDay
  split_ifs <;> dsimp only <;> omega

theorem addOneDay_ok (d : Date) (h : (nextDay d).year ≤ 9999) :
    addOneDay d = Except.ok (nextDay d) := by
  unfold addOneDay
  rw [if_pos h]

/-- The scanner loop, run on a date of a year no later than 9998, returns
within `fuel` iterations whenever the fuel covers the days remaining in
the year, keeping the count non-negative. -/
theorem countAux_some (dial : BrokenDateDial) (year : Nat)
    (hcap : year ≤ 9998) :
    ∀ (fuel : Nat) (d : Date) (count : Int), ValidDate d → d.year = year →
      daysInYear year + 1 ≤ dayOfYear d + fuel → 0 ≤ count →
      ∃ c, countAux dial year fuel d count = some (Except.ok c) ∧ 0 ≤ c := by
  intro fuel
  induction fuel with
  | zero =>
    intro d count hd hy hle _
    exfalso
    have h := dayOfYear_le d hd
    rw [hy] at h
    omega
  | succ fuel ih =>
    intro d count hd hy hle hc
    have hcount : 0 ≤ (if fromdate d = dial then count + 1 else count) := by
      split <;> omega
    have hok : addOneDay d = Except.ok (nextDay d) := by
      apply addOneDay_ok
      have := nextDay_year_le d
      omega
    by_cases hlast : dayOfYear d = daysInYear d.year
    · have hroll := nextDay_rollover d hd hlast
      have hne : (nextDay d).year ≠ year := by
        rw [hroll, hy]
        omega
      refine ⟨if fromdate d = dial then count + 1 else count, ?_, hcount⟩
      simp only [countAux, hok]
      rw [if_pos hne]
    · have hle2 := dayOfYear_le d hd
      have hlt : dayOfYear d < daysInYear d.year := by omega
      obtain ⟨hv, hy2, hinc⟩ := nextDay_step d hd hlt
      have hyy : (nextDay d).year = year := by rw [hy2, hy]
      have hne : ¬ (nextDay d).year ≠ year := by simp [hyy]
      have hle3 : daysInYear year + 1 ≤ dayOfYear (nextDay d) + fuel := by
        omega
      obtain ⟨c, hc1, hc2⟩ :=
        ih (nextDay d) (if fromdate d = dial then count + 1 else count)
          hv hyy hle3 hcount
      refine ⟨c, ?_, hc2⟩
      simp only [countAux, hok]
      rw [if_neg hne]
      exact hc1

/-! ## Claims about the dial arithmetic -/

/-- C1: for in-range states `s`, `t`, the click distance `t - s`
(`t.clicks_from(s)`) is returned successfully, lies in `[0, 216]`,
advancing `s` by it reaches `t`, and it is the unique integer in `[0, 216]`
doing so. -/
theorem claim_C1_clicks_unique (s t : BrokenDateDial)
    (hs : InRange s) (ht : InRange t) :
    ∃ r : Int, clicks_from t s = Except.ok r ∧ 0 ≤ r ∧ r ≤ 216 ∧
      add s r = t ∧
      ∀ k : Int, 0 ≤ k → k ≤ 216 → add s k = t → k = r := by
  obtain ⟨h1, h2, h3, h4⟩ := hs
  obtain ⟨g1, g2, g3, g4⟩ := ht
  refine ⟨((t.day - s.day) % 7 * -2 * 31 + (t.date - s.date) % 31 * 9 * 7) % 217,
    clicks_from_eq t s, by omega, by omega, ?_, ?_⟩
  · rw [dial_eq_iff, add_day, add_date]
    constructor <;> omega
  · intro k hk0 hk1 hkeq
    rw [dial_eq_iff, add_day, add_date] at hkeq
    omega

/-- C1 witness: the distance from `(0, 1)` to `(3, 5)`. -/
theorem claim_C1_clicks_unique_witness :
    ∃ r : Int, clicks_from ⟨3, 5⟩ ⟨0, 1⟩ = Except.ok r ∧ 0 ≤ r ∧ r ≤ 216 ∧
      add ⟨0, 1⟩ r = ⟨3, 5⟩ ∧
      ∀ k : Int, 0 ≤ k → k ≤ 216 → add ⟨0, 1⟩ k = ⟨3, 5⟩ → k = r :=
  claim_C1_clicks_unique ⟨0, 1⟩ ⟨3, 5⟩ (by decide) (by decide)

/-- C2: advancing an in-range state by any integer `n` (negative included)
gives `day' = (day + n) mod 7` and `date' = ((date - 1 + n) mod 31) + 1`,
with the modulo always non-negative (floored/Euclidean). -/
theorem claim_C2_advance (s : BrokenDateDial) (n : Int) (h : InRange s) :
    (add s n).day = (s.day + n) % 7 ∧
    (add s n).date = (s.date - 1 + n) % 31 + 1 ∧
    0 ≤ (s.day + n) % 7 ∧ 0 ≤ (s.date - 1 + n) % 31 :=
  ⟨rfl, rfl, by omega, by omega⟩

/-- C2 witness: advancing `(0, 1)` by `-5`. -/
theorem claim_C2_advance_witness :
    (add ⟨0, 1⟩ (-5)).day = (((0 : Int)) + -5) % 7 ∧
    (add ⟨0, 1⟩ (-5)).date = ((1 : Int) - 1 + -5) % 31 + 1 ∧
    0 ≤ ((0 : Int) + -5) % 7 ∧ 0 ≤ ((1 : Int) - 1 + -5) % 31 :=
  claim_C2_advance ⟨0, 1⟩ (-5) (by decide)

/-- C3: the range invariant (`day ∈ [0,6]`, `date ∈ [1,31]`) is preserved:
advancing an in-range state by any integer stays in range, and `fromdate`
of any valid calendar date is in range. -/
theorem claim_C3_invariant (s : BrokenDateDial) (n : Int) (d : Date)
    (hs : InRange s) (hd : ValidDate d) :
    InRange (add s n) ∧ InRange (fromdate d) := by
  obtain ⟨h1, h2, h3, h4⟩ := hs
  obtain ⟨hy, hm1, hm2, hd1, hd2⟩ := hd
  have hdm := daysInMonth_le d.year d.month
  constructor
  · refine ⟨?_, ?_, ?_, ?_⟩ <;> simp only [add_day, add_date] <;> omega
  · refine ⟨?_, ?_, ?_, ?_⟩ <;> simp only [fromdate_day, fromdate_date] <;> omega

/-- C3 witness: state `(0, 1)` advanced by `-100`, and 2020-02-29. -/
theorem claim_C3_invariant_witness :
    InRange (add ⟨0, 1⟩ (-100)) ∧ InRange (fromdate ⟨2020, 2, 29⟩) :=
  claim_C3_invariant ⟨0, 1⟩ (-100) ⟨2020, 2, 29⟩ (by decide) (by decide)

/-- C4: `bezouts_identity` answers `(9, -2)` exactly for the pair
`(7, 31)` (and `9·7 + (-2)·31 = 1`); every other pair, `(5, 12)` in
particular, raises the unsupported-moduli error instead of returning
numbers. -/
theorem claim_C4_bezout :
    bezouts_identity 7 31 = Except.ok (9, -2) ∧
    (9 : Int) * 7 + (-2) * 31 = 1 ∧
    (∃ e, bezouts_identity 5 12 = Except.error e) ∧
    ∀ a b : Int, ¬(a = 7 ∧ b = 31) →
      ∃ e, bezouts_identity a b = Except.error e := by
  refine ⟨rfl, by norm_num, ⟨_, rfl⟩, ?_⟩
  intro a b h
  unfold bezouts_identity
  rw [if_neg h]
  exact ⟨_, rfl⟩

/-- C5: click distances are additive modulo 217 for in-range states. -/
theorem claim_C5_additive (a b c : BrokenDateDial) (x y z : Int)
    (ha : InRange a) (hb : InRange b) (hc : InRange c)
    (hx : clicks_from b a = Except.ok x)
    (hy : clicks_from c b = Except.ok y)
    (hz : clicks_from c a = Except.ok z) :
    (x + y) % 217 = z % 217 := by
  have ex := clicks_from_ok hx
  have ey := clicks_from_ok hy
  have ez := clicks_from_ok hz
  omega

/-- C5 witness: `a = (0, 1)`, `b = (3, 5)`, `c = (6, 9)`. -/
theorem claim_C5_additive_witness :
    (66 + 66) % 217 = (132 : Int) % 217 :=
  claim_C5_additive ⟨0, 1⟩ ⟨3, 5⟩ ⟨6, 9⟩ 66 66 132
    (by decide) (by decide) (by decide) rfl rfl rfl

/-- C6: advancing 217 total clicks is the identity: for in-range `s` and
`n ∈ [0, 216]`, `(s + n) + ((217 - n % 217) % 217) = s`; and the
self-distance `s.clicks_from(s)` is 0. -/
theorem claim_C6_roundtrip (s : BrokenDateDial) (n : Int) (hs : InRange s)
    (h0 : 0 ≤ n) (h1 : n ≤ 216) :
    add (add s n) ((217 - n % 217) % 217) = s ∧
    clicks_from s s = Except.ok 0 := by
  obtain ⟨a1, a2, a3, a4⟩ := hs
  constructor
  · rw [dial_eq_iff, add_day, add_date, add_day, add_date]
    constructor <;> omega
  · rw [clicks_from_eq]
    congr 1
    omega

/-- C6 witness: `s = (2, 17)`, `n = 100`. -/
theorem claim_C6_roundtrip_witness :
    add (add ⟨2, 17⟩ 100) ((217 - (100 : Int) % 217) % 217) = ⟨2, 17⟩ ∧
    clicks_from ⟨2, 17⟩ ⟨2, 17⟩ = Except.ok 0 :=
  claim_C6_roundtrip ⟨2, 17⟩ 100 (by decide) (by decide) (by decide)

/-- C9: `fromdate` maps a valid calendar date to the dial state
`(isoweekday mod 7, day-of-month)`: the `date` field is the day of the
month taken directly (never reduced against the month length), and the
`day` field follows the Sunday = 0 convention — ISO weekday 7 (Sunday)
maps to 0 and ISO weekdays 1..6 (Monday..Saturday) map to themselves.
`fromdate` is total: it never fails. -/
theorem claim_C9_fromdate (d : Date) (hd : ValidDate d) :
    (fromdate d).date = ((d.day : Nat) : Int) ∧
    (fromdate d).day = ((isoweekday d % 7 : Nat) : Int) ∧
    1 ≤ isoweekday d ∧ isoweekday d ≤ 7 ∧
    (isoweekday d = 7 → (fromdate d).day = 0) ∧
    (isoweekday d < 7 → (fromdate d).day = ((isoweekday d : Nat) : Int)) := by
  have h7 : isoweekday d % 7 + 1 ≤ 7 := by
    have := Nat.mod_lt (isoweekday d) (show 0 < 7 by norm_num)
    omega
  refine ⟨rfl, rfl, ?_, ?_, ?_, ?_⟩
  · unfold isoweekday
    omega
  · unfold isoweekday
    omega
  · intro h
    rw [fromdate_day, h]
    rfl
  · intro h
    rw [fromdate_day, Nat.mod_eq_of_lt h]

/-- C9 witness: 2020-02-23, an ISO Sunday, and the claim at that date. -/
theorem claim_C9_fromdate_witness :
    (fromdate ⟨2020, 2, 23⟩).date = ((23 : Nat) : Int) ∧
    (fromdate ⟨2020, 2, 23⟩).day =
      ((isoweekday ⟨2020, 2, 23⟩ % 7 : Nat) : Int) ∧
    1 ≤ isoweekday ⟨2020, 2, 23⟩ ∧ isoweekday ⟨2020, 2, 23⟩ ≤ 7 ∧
    (isoweekday ⟨2020, 2, 23⟩ = 7 → (fromdate ⟨2020, 2, 23⟩).day = 0) ∧
    (isoweekday ⟨2020, 2, 23⟩ < 7 → (fromdate ⟨2020, 2, 23⟩).day =
      ((isoweekday ⟨2020, 2, 23⟩ : Nat) : Int)) :=
  claim_C9_fromdate ⟨2020, 2, 23⟩ (by decide)

/-- C10: subtracting an integer turns the dial backwards: `s - n` is
`s + (-n)`, and for in-range `s` it inverts advancing: `(s + n) - n = s`. -/
theorem claim_C10_sub_inverse (s : BrokenDateDial) (n : Int)
    (hs : InRange s) :
    sub_integer s n = add s (-n) ∧ sub_integer (add s n) n = s := by
  obtain ⟨a1, a2, a3, a4⟩ := hs
  refine ⟨rfl, ?_⟩
  rw [sub_integer, dial_eq_iff, add_day, add_date, add_day, add_date]
  constructor <;> omega

/-- C10 witness: `s = (4, 30)`, `n = 12`. -/
theorem claim_C10_sub_inverse_witness :
    sub_integer ⟨4, 30⟩ 12 = add ⟨4, 30⟩ (-12) ∧
    sub_integer (add ⟨4, 30⟩ 12) 12 = ⟨4, 30⟩ :=
  claim_C10_sub_inverse ⟨4, 30⟩ 12 (by decide)

set_option maxRecDepth 100000

/-- C7: scanning the year 2020 for the dial state `(day = 0, date = 23)`
(Sundays falling on the 23rd) returns exactly 2 matches
(2020-02-23 and 2020-08-23). -/
theorem claim_C7_count_2020 :
    count_broken_dial_correct ⟨0, 23⟩ 2020 = some (Except.ok 2) := by
  rfl

/-- C8 counterexample: 9999 is a valid `datetime` year, but on 9999-12-31
`d += delta_one_day` overflows `date.max` and the program raises before
the rollover check — the scanner does not return a count. -/
theorem claim_C8_counterexample :
    count_broken_dial_correct ⟨0, 23⟩ 9999 =
      some (Except.error "result out of range") ∧
    ¬ ∃ c : Int, count_broken_dial_correct ⟨0, 23⟩ 9999 =
      some (Except.ok c) := by
  have h : count_broken_dial_correct ⟨0, 23⟩ 9999 =
      some (Except.error "result out of range") := by rfl
  refine ⟨h, ?_⟩
  rintro ⟨c, hc⟩
  rw [h] at hc
  simp at hc

/-- C8 (amended): for every valid year up to 9998 the scanner terminates
within its 366-day fuel budget — the loop starts at January 1 and stops
on the year rollover — and it returns a non-negative count. At the
remaining valid year, 9999, the day increment overflows `date.max` and
the program raises instead of returning. -/
theorem claim_C8_terminates (dial : BrokenDateDial) (year : Nat)
    (hy : 1 ≤ year) (hcap : year ≤ 9998) :
    ∃ c, count_broken_dial_correct dial year = some (Except.ok c) ∧
      0 ≤ c := by
  have hv : ValidDate ⟨year, 1, 1⟩ := by
    refine ⟨hy, by norm_num, by norm_num, by norm_num, ?_⟩
    simp [daysInMonth]
  have h1 : dayOfYear ⟨year, 1, 1⟩ = 1 := by
    simp [dayOfYear, daysBeforeMonth]
  have h2 : daysInYear year ≤ 366 := by
    unfold daysInYear
    split <;> omega
  obtain ⟨c, hc1, hc2⟩ :=
    countAux_some dial year hcap 366 ⟨year, 1, 1⟩ 0 hv rfl (by omega) le_rfl
  exact ⟨c, hc1, hc2⟩

/-- C8 witness: the non-leap year 2019. -/
theorem claim_C8_terminates_witness :
    ∃ c, count_broken_dial_correct ⟨0, 23⟩ 2019 = some (Except.ok c) ∧
      0 ≤ c :=
  claim_C8_terminates ⟨0, 23⟩ 2019 (by norm_num) (by norm_num)

end BrokenWatch
